import Mathlib

/-!
Verification development for the Ido analytics engine.

The repository's analytics pipeline (spec §2–§4) derives statistical and
pattern-based insights from a normalized stream of media events.  The
engine itself is served by the FastAPI backend; the frontend sources in
this repository consume its output.  Components below that are not present
among the frontend sources are modelled from the specification, faithful to
its wording; frontend functions (card carousel navigation, timezone
selector) are embedded directly from the TypeScript sources.
-/

namespace Ido

/-- Event type, spec §3: `type ∈ {watch, search, subscribe}`. -/
inductive EType where
  | watch
  | search
  | subscribe
deriving DecidableEq, Repr

/-- Modelled from the spec (§3 Data Model): one normalized event record.
`hourLocal ∈ [0,23]` and `dayOfWeek ∈ [0,6]` are nullable; `date` is the
local calendar date encoded as a day index (null when `timestamp_local`
is null, such events are excluded from temporal aggregation); `channel`
is the nullable normalized channel name. -/
structure Event where
  etype : EType
  hourLocal : Option (Fin 24)
  dayOfWeek : Option (Fin 7)
  date : Option Nat
  channel : Option String
deriving DecidableEq, Repr

/-- The watch events of a stream (spec §4.1: temporal aggregation is over
watch events only). -/
def watchEvents (es : List Event) : List Event :=
  es.filter (fun e => e.etype = EType.watch)

/-- Modelled from the spec (§4.1 TimeBucketAggregator): the local hours of
the watch events that carry a non-null `hour_local`. -/
def watchHours (es : List Event) : List (Fin 24) :=
  (watchEvents es).filterMap (fun e => e.hourLocal)

/-- Modelled from the spec (§4.1): the local days-of-week of the watch
events that carry a non-null `day_of_week`. -/
def watchDays (es : List Event) : List (Fin 7) :=
  (watchEvents es).filterMap (fun e => e.dayOfWeek)

/-- Count of watch events falling into hour slot `h`. -/
def hourCount (es : List Event) (h : Nat) : Nat :=
  (watchHours es).countP (fun x => x.val = h)

/-- Count of watch events falling into day-of-week slot `d`. -/
def dayCount (es : List Event) (d : Nat) : Nat :=
  (watchDays es).countP (fun x => x.val = d)

/-- Modelled from the spec (§4.1): the 24-slot hourly histogram. -/
def hourlyDistribution (es : List Event) : List Nat :=
  (List.range 24).map (hourCount es)

/-- Modelled from the spec (§4.1): the 7-slot day-of-week histogram. -/
def dailyDistribution (es : List Event) : List Nat :=
  (List.range 7).map (dayCount es)

/-- Modelled from the spec (§4.1): `peak_hour` is the argmax of the hourly
histogram, ties broken by lowest index; null when there are no watch
events with an hour. -/
def peakHour (es : List Event) : Option Nat :=
  if watchHours es = [] then none
  else (List.range 24).find? (fun h =>
    decide (∀ h' ∈ List.range 24, hourCount es h' ≤ hourCount es h))

/-- Modelled from the spec (§4.1): `peak_day` is the argmax of the daily
histogram, ties broken by lowest index; null when there are no watch
events with a day-of-week. -/
def peakDay (es : List Event) : Option Nat :=
  if watchDays es = [] then none
  else (List.range 7).find? (fun d =>
    decide (∀ d' ∈ List.range 7, dayCount es d' ≤ dayCount es d))

/-! ### SessionSegmenter time-spent estimate (spec §4.2) -/

/-- The calendar dates (day indices) on which a watch event occurred,
without duplicates, in order of first appearance. -/
def activeDates (es : List Event) : List Nat :=
  ((watchEvents es).filterMap (fun e => e.date)).dedup

/-- Number of distinct active days. -/
def distinctActiveDays (es : List Event) : Nat :=
  (activeDates es).length

/-- Time-spent summary record (spec §4.2). -/
structure TimeSpent where
  totalMinutes : ℚ
  totalHours : ℤ
  averageDailyMinutes : ℚ
deriving DecidableEq, Repr

/-- Modelled from the spec (§4.2 SessionSegmenter): `total_minutes =
event_count × per_video_minutes_estimate` (default estimate 4), rather
than being derived from session spans; `total_hours =
round(total_minutes/60)`; `average_daily_minutes = total_minutes /
distinct_active_days`, resolving division by zero to zero per §7(b). -/
def timeSpent (es : List Event) (perVideoMinutesEstimate : ℚ) : TimeSpent :=
  let n : ℚ := ((watchEvents es).length : ℚ)
  let tm : ℚ := n * perVideoMinutesEstimate
  { totalMinutes := tm
    totalHours := round (tm / 60)
    averageDailyMinutes :=
      if distinctActiveDays es = 0 then 0
      else tm / (distinctActiveDays es : ℚ) }

/-! ### BaselineStatistics and binge anomalies (spec §4.3–§4.4) -/

/-- One row of the daily-count table: a calendar date (day index) together
with its watch-event count. -/
structure DayTally where
  date : Nat
  count : Nat
deriving DecidableEq, Repr

/-- Modelled from the spec (§4.3): the `DailyCount` table over calendar
dates — one row per distinct active date, counting the watch events that
fall on it. -/
def dailyTable (es : List Event) : List DayTally :=
  (activeDates es).map (fun d =>
    { date := d
      count := (watchEvents es).countP (fun e => e.date = some d) })

/-- Modelled from the spec (§4.3): mean of the daily count values
(zero for an empty table, guarding division by zero per §7(b)). -/
def meanQ (t : List DayTally) : ℚ :=
  if t.length = 0 then 0
  else (t.map (fun d => (d.count : ℚ))).sum / (t.length : ℚ)

/-- Modelled from the spec (§4.3): sample variance (n−1 denominator) of
the daily count values; zero when fewer than two rows, so that the sample
standard deviation `stddev = 0 when n < 2`, guarding later division. -/
def sampleVar (t : List DayTally) : ℚ :=
  if t.length < 2 then 0
  else (t.map (fun d => ((d.count : ℚ) - meanQ t) ^ 2)).sum / ((t.length : ℚ) - 1)

/-- Modelled from the spec (§4.4): a date qualifies as a binge anomaly if
`daily_count > mean + 2·stddev` AND `daily_count ≥ 10`.  Since
`stddev = √variance`, the threshold comparison is expressed by the
equivalent squared inequality `count > mean ∧ (count − mean)² > 4·variance`
to remain decidable; the equivalence with the square-root form is proved
in `binge_qualifies_iff_sqrt`. -/
def bingeQualifies (t : List DayTally) (c : Nat) : Bool :=
  decide (10 ≤ c) &&
  decide (meanQ t < (c : ℚ)) &&
  decide (4 * sampleVar t < ((c : ℚ) - meanQ t) ^ 2)

/-- Severity of an anomaly record (spec §3). -/
inductive Severity where
  | high
  | medium
deriving DecidableEq, Repr

/-- A binge anomaly record (spec §3 AnomalyRecord, binge type). -/
structure BingeRecord where
  date : Nat
  multiplier : ℚ
  severity : Severity
deriving DecidableEq, Repr

/-- The binge record the detector builds for one qualifying table row:
`multiplier = daily_count/mean`; severity high if `multiplier ≥ 3` else
medium (spec §4.4). -/
def bingeRecordOf (t : List DayTally) (d : DayTally) : BingeRecord :=
  { date := d.date
    multiplier := (d.count : ℚ) / meanQ t
    severity := if 3 ≤ (d.count : ℚ) / meanQ t then Severity.high else Severity.medium }

/-- Modelled from the spec (§4.4 AnomalyDetector, binge branch): the list
of binge anomaly records over a daily-count table — one record per
qualifying date, skipped entirely when the mean is zero (`multiplier =
daily_count/mean (skip if mean=0)`). -/
def bingeRecords (t : List DayTally) : List BingeRecord :=
  if meanQ t = 0 then []
  else (t.filter (fun d => bingeQualifies t d.count)).map (bingeRecordOf t)

/-! ### Run-length compression and HabitTracker (spec §4.5, §9) -/

/-- Run-length compression over a sorted date list with a gap-tolerance
parameter (spec §9: one parameterized utility shared by anomaly streak
merging, tolerance 1, and habit streak detection, tolerance 0).  A date
`d` continues the current run when `d ≤ prev + tol + 1`. -/
def runLengthsAux (tol : Nat) : Nat → Nat → List Nat → List Nat
  | _, len, [] => [len]
  | prev, len, d :: ds =>
    if d ≤ prev + tol + 1 then runLengthsAux tol d (len + 1) ds
    else len :: runLengthsAux tol d 1 ds

/-- The lengths of the maximal runs of a sorted date list under gap
tolerance `tol`. -/
def runLengths (tol : Nat) : List Nat → List Nat
  | [] => []
  | d :: ds => runLengthsAux tol d 1 ds

/-- Modelled from the spec (§4.5 HabitTracker): maximal runs of strictly
consecutive dates (gap tolerance 0); a run qualifies as a streak when its
length is at least `minLen` (default 3). -/
def qualifyingStreaks (minLen : Nat) (dates : List Nat) : List Nat :=
  (runLengths 0 dates).filter (fun n => decide (minLen ≤ n))

/-- Modelled from the spec (§4.5): `longest_streak` = maximum run length. -/
def longestStreak (dates : List Nat) : Nat :=
  (runLengths 0 dates).foldr max 0

/-- Modelled from the spec (§4.5): `total_habit_days` = sum of the lengths
of the qualifying runs only. -/
def totalHabitDays (minLen : Nat) (dates : List Nat) : Nat :=
  (qualifyingStreaks minLen dates).sum

/-! ### PatternMiner (spec §4.6) -/

/-- One transaction per calendar date (spec §4.6): its day-of-week, its
hour-bucket interval (0 Night, 1 Morning, 2 Afternoon, 3 Evening), and the
channel items of the date (its top-K channels, prepared upstream). -/
structure Txn where
  day : Fin 7
  bucket : Fin 4
  channels : List String
deriving DecidableEq, Repr

/-- A temporal item: `day_of_week=<d>` or `hour_bucket=<b>` (spec §4.6). -/
inductive TItem where
  | day (d : Fin 7)
  | bucket (b : Fin 4)
deriving DecidableEq, Repr

/-- Whether a transaction carries a temporal item. -/
def hasT (t : TItem) (x : Txn) : Bool :=
  match t with
  | TItem.day d => decide (x.day = d)
  | TItem.bucket b => decide (x.bucket = b)

/-- Whether a transaction carries a channel item. -/
def hasC (c : String) (x : Txn) : Bool :=
  x.channels.contains c

/-- Occurrences of a temporal item across the transactions. -/
def occT (ts : List Txn) (t : TItem) : Nat := ts.countP (hasT t)

/-- Occurrences of a channel item across the transactions. -/
def occC (ts : List Txn) (c : String) : Nat := ts.countP (hasC c)

/-- Joint occurrences of a temporal and a channel item. -/
def occTC (ts : List Txn) (t : TItem) (c : String) : Nat :=
  ts.countP (fun x => hasT t x && hasC c x)

/-- An association rule (spec §3 PatternRule): temporal antecedent,
channel consequent, raw joint occurrence count, support, confidence,
lift. -/
structure Rule where
  ant : TItem
  con : String
  count : Nat
  support : ℚ
  confidence : ℚ
  lift : ℚ
deriving DecidableEq, Repr

/-- The fixed enumeration of temporal items: the 7 day-of-week values then
the 4 hour buckets (a deterministic order, spec §4.6). -/
def temporalItems : List TItem :=
  ((List.finRange 7).map TItem.day) ++ ((List.finRange 4).map TItem.bucket)

/-- The channel-item universe of a transaction set: every channel item
appearing in some transaction, in order of first appearance. -/
def channelItems (ts : List Txn) : List String :=
  (ts.flatMap (fun x => x.channels)).dedup

/-- Modelled from the spec (§4.6): the candidate rule for one pair of a
temporal item and a channel item: `support = occurrences(A∧B) /
total_transactions`, `confidence = support(A∧B)/support(A)`,
`lift = confidence/support(B)` (divisions by zero resolve to zero,
§7(b)). -/
def mkRule (ts : List Txn) (t : TItem) (c : String) : Rule :=
  let total : ℚ := (ts.length : ℚ)
  let s : ℚ := (occTC ts t c : ℚ) / total
  let conf : ℚ := s / ((occT ts t : ℚ) / total)
  { ant := t
    con := c
    count := occTC ts t c
    support := s
    confidence := conf
    lift := conf / ((occC ts c : ℚ) / total) }

/-- All candidate rules: every pair combining one temporal item and one
channel item, in the deterministic enumeration order. -/
def candidateRules (ts : List Txn) : List Rule :=
  temporalItems.flatMap (fun t => (channelItems ts).map (mkRule ts t))

/-- Modelled from the spec (§4.6): a candidate is kept when
`support ≥ min_support` (default 0.05), its raw occurrence count is at
least 3, and `confidence ≥ min_confidence` (default 0.5). -/
def keepRule (r : Rule) : Bool :=
  decide ((1 / 20 : ℚ) ≤ r.support) &&
  decide (3 ≤ r.count) &&
  decide ((1 / 2 : ℚ) ≤ r.confidence)

/-- The kept rules of a transaction set. -/
def keptRules (ts : List Txn) : List Rule :=
  (candidateRules ts).filter keepRule

/-- The descending ranking used on kept rules: by lift, then confidence,
then support (spec §4.6). `rankLE r s` holds when `r` may come before
`s`. -/
def rankLE (r s : Rule) : Bool :=
  decide (s.lift < r.lift ∨
    (s.lift = r.lift ∧ (s.confidence < r.confidence ∨
      (s.confidence = r.confidence ∧ s.support ≤ r.support))))

/-- Stable insertion of a rule into a ranked list: the rule goes after
every rule strictly above it in the ranking and before the first rule
that ties with it or ranks below it. -/
def insertRanked (r : Rule) : List Rule → List Rule
  | [] => [r]
  | s :: l => if rankLE s r && !rankLE r s then s :: insertRanked r l else r :: s :: l

/-- Stable sort of the kept rules by the descending ranking (spec §4.6:
determinism — identical input must reproduce identical ranked output,
including under tie conditions). -/
def sortRanked : List Rule → List Rule
  | [] => []
  | r :: l => insertRanked r (sortRanked l)

/-- Modelled from the spec (§4.6): the ranked top-N output (default
N = 4) — the kept rules stably sorted by lift desc, confidence desc,
support desc, truncated to four rules. -/
def topRules (ts : List Txn) : List Rule :=
  (sortRanked (keptRules ts)).take 4

/-! ### SubscriptionOverlapAnalyzer (spec §4.7) -/

/-- The overlap analysis record (spec §4.7). -/
structure OverlapResult where
  overlap : Finset String
  ghost : Finset String
  unsubscribedWatched : Finset String
  overlapPercentage : ℚ
deriving DecidableEq

/-- Modelled from the spec (§4.7 SubscriptionOverlapAnalyzer): pure set
algebra over the subscribed set S and the watched set W: `overlap = S∩W`,
`ghost = S\W`, `unsubscribed_watched = W\S`; the overlap percentage is
relative to `|S|` (zero when S is empty, §7(b)). -/
def overlapAnalysis (S W : Finset String) : OverlapResult :=
  { overlap := S ∩ W
    ghost := S \ W
    unsubscribedWatched := W \ S
    overlapPercentage :=
      if S.card = 0 then 0 else ((S ∩ W).card : ℚ) / (S.card : ℚ) * 100 }

/-! ### Full pipeline (spec §2, §8: determinism / idempotence) -/

/-- The hour-bucket interval of §4.1 containing an hour: Night 0–5,
Morning 6–11, Afternoon 12–17, Evening 18–23. -/
def bucketOfHour (h : Fin 24) : Fin 4 :=
  ⟨h.val / 6, by omega⟩

/-- The transaction of one calendar date (spec §4.6): its day-of-week and
hour bucket are taken from the date's first watch event carrying them, and
its channel items are the date's channels in order of first appearance. -/
def txnOfDate (es : List Event) (d : Nat) : Txn :=
  let onDate := (watchEvents es).filter (fun e => e.date = some d)
  { day := ((onDate.filterMap (fun e => e.dayOfWeek)).head?).getD 0
    bucket := (((onDate.filterMap (fun e => e.hourLocal)).head?).map bucketOfHour).getD 0
    channels := (onDate.filterMap (fun e => e.channel)).dedup }

/-- One transaction per active calendar date (spec §4.6). -/
def transactionsOf (es : List Event) : List Txn :=
  (activeDates es).map (txnOfDate es)

/-- The subscribed-channel set of an event stream. -/
def subscribedSet (es : List Event) : Finset String :=
  ((es.filter (fun e => e.etype = EType.subscribe)).filterMap (fun e => e.channel)).toFinset

/-- The watched-channel set of an event stream. -/
def watchedSet (es : List Event) : Finset String :=
  ((watchEvents es).filterMap (fun e => e.channel)).toFinset

/-- Rendering of a temporal item into the natural-language template. -/
def renderTItem : TItem → String
  | TItem.day d => "day " ++ toString d.val
  | TItem.bucket b => "interval " ++ toString b.val

/-- Rendering of a ranked rule into its natural-language insight text
(spec §4.6). -/
def renderRule (r : Rule) : String :=
  "On " ++ renderTItem r.ant ++ " you watch " ++ r.con

/-- The serializable record produced by one pipeline run (spec §6: one
plain, serializable record per component). -/
structure PipelineOutput where
  hourly : List Nat
  daily : List Nat
  peakH : Option Nat
  peakD : Option Nat
  time : TimeSpent
  binge : List BingeRecord
  longest : Nat
  habitDays : Nat
  rules : List Rule
  insights : List String
  overlapList : List String
  ghostList : List String
  unsubscribedList : List String
deriving DecidableEq, Repr

/-- Modelled from the spec (§2, §5): one full synchronous run of the
derivation pipeline over an immutable event snapshot plus the
per-video-minutes configuration value; every component is a pure function
of these inputs. -/
def pipeline (es : List Event) (perVideoMinutesEstimate : ℚ) : PipelineOutput :=
  let sortedDates := (activeDates es).mergeSort (fun a b => decide (a ≤ b))
  let ov := overlapAnalysis (subscribedSet es) (watchedSet es)
  { hourly := hourlyDistribution es
    daily := dailyDistribution es
    peakH := peakHour es
    peakD := peakDay es
    time := timeSpent es perVideoMinutesEstimate
    binge := bingeRecords (dailyTable es)
    longest := longestStreak sortedDates
    habitDays := totalHabitDays 3 sortedDates
    rules := topRules (transactionsOf es)
    insights := (topRules (transactionsOf es)).map renderRule
    overlapList := ov.overlap.sort (· ≤ ·)
    ghostList := ov.ghost.sort (· ≤ ·)
    unsubscribedList := ov.unsubscribedWatched.sort (· ≤ ·) }

/-- Serialization of a pipeline run to text (spec §8: byte-identical
serialized output). -/
def serializeOutput (o : PipelineOutput) : String :=
  reprStr o

/-! ### Home page card carousel (ido_frontend Home page source)

The Home page's `renderCards` returns a fixed list of 19 cards; `goNext`
and `goPrev` step the current-card index by `(c + 1) % 19` and
`(c - 1 + 19) % 19` respectively. -/

/-- The `key` props of the 19 cards `renderCards` returns, in render
order (embedded from the Home page source). -/
def wrappedCardKeys : List String :=
  ["intro", "stats", "time", "peak-month", "spotlight", "top-channels",
   "watch-cycle", "day-of-week", "streak", "personality", "binge",
   "late-night", "habits", "patterns", "rewatched", "subscriptions",
   "search", "first-last", "outro"]

/-- `goNext` of the Home page carousel: `(c + 1) % 19` over the
current-card index. -/
def goNext (c : ℤ) : ℤ := (c + 1) % 19

/-- `goPrev` of the Home page carousel: `(c - 1 + 19) % 19` over the
current-card index. -/
def goPrev (c : ℤ) : ℤ := (c - 1 + 19) % 19

/-! ### Timezone selector (ido_frontend timezone-selector source)

The selector renders `allTimezones.slice(0, 50)` as its option list. -/

/-- The option list the timezone selector renders from the timezone list
it holds: `allTimezones.slice(0, 50)`. -/
def renderedTimezones (allTimezones : List String) : List String :=
  allTimezones.take 50

/-! ### Concrete inputs used by the testable properties (spec §8) -/

/-- The daily-count table of spec §8: nine days with count 2 and one day
with count 20. -/
def exampleTable : List DayTally :=
  [⟨0, 2⟩, ⟨1, 2⟩, ⟨2, 2⟩, ⟨3, 2⟩, ⟨4, 2⟩, ⟨5, 2⟩, ⟨6, 2⟩, ⟨7, 2⟩, ⟨8, 2⟩, ⟨9, 20⟩]

/-- A four-event stream with two watch events at hour 1 and two at hour 3:
hours 1 and 3 tie for the maximum hourly count. -/
def esTie : List Event :=
  [⟨EType.watch, some 3, none, none, none⟩,
   ⟨EType.watch, some 1, none, none, none⟩,
   ⟨EType.watch, some 1, none, none, none⟩,
   ⟨EType.watch, some 3, none, none, none⟩]

/-- The association rule (day_of_week=Saturday → channel=A) of a
transaction set (Saturday is day-of-week 5, Monday = 0). -/
def satRuleOf (ts : List Txn) : Rule :=
  mkRule ts (TItem.day 5) "A"

/-- A sixteen-transaction set: channel A is an item of each of the four
Saturday transactions and of no other transaction, while channels B, C,
D, E each perfectly accompany a temporal item of occurrence three. -/
def txnsCE : List Txn :=
  [⟨5, 0, ["A"]⟩, ⟨5, 0, ["A"]⟩, ⟨5, 0, ["A"]⟩, ⟨5, 0, ["A"]⟩,
   ⟨6, 0, ["B"]⟩, ⟨6, 0, ["B"]⟩, ⟨6, 0, ["B"]⟩,
   ⟨0, 0, ["C"]⟩, ⟨0, 0, ["C"]⟩, ⟨0, 0, ["C"]⟩,
   ⟨1, 0, ["D"]⟩, ⟨1, 0, ["D"]⟩, ⟨1, 0, ["D"]⟩,
   ⟨2, 0, ["E"]⟩, ⟨2, 0, ["E"]⟩, ⟨2, 0, ["E"]⟩]

/-- A four-transaction set: channel A on all four Saturday transactions
and nothing else. -/
def txnsW : List Txn :=
  [⟨5, 0, ["A"]⟩, ⟨5, 0, ["A"]⟩, ⟨5, 0, ["A"]⟩, ⟨5, 0, ["A"]⟩]

/-! ## Theorems -/

/-- C10: The timezone selector displays at most the first 50 entries of
whatever timezone list it holds: for every list of timezones returned by
the backend, the rendered option list is the 50-element (or shorter)
prefix of that list. -/
theorem timezone_options_take50 :
    ∀ tzs : List String,
      renderedTimezones tzs = tzs.take 50 ∧
      (renderedTimezones tzs).length ≤ 50 ∧
      (∀ i : Nat, i < 50 → (renderedTimezones tzs).get? i = tzs.get? i) ∧
      (tzs.length ≤ 50 → renderedTimezones tzs = tzs) := by
  intro tzs
  refine ⟨rfl, ?_, ?_, ?_⟩
  · simp [renderedTimezones, List.length_take]
  · intro i hi
    simp [renderedTimezones, List.get?_take, hi]
  · intro h
    simp [renderedTimezones, List.take_of_length_le h]

/-- Witness for C10 at the two-element list: the rendered options agree
with the held list entrywise and equal it since it is shorter than 50. -/
theorem timezone_options_take50_witness :
    (renderedTimezones ["UTC", "Asia/Kolkata"]).get? 0 =
      (["UTC", "Asia/Kolkata"] : List String).get? 0 ∧
    renderedTimezones ["UTC", "Asia/Kolkata"] = ["UTC", "Asia/Kolkata"] :=
  ⟨(timezone_options_take50 ["UTC", "Asia/Kolkata"]).2.2.1 0 (by decide),
   (timezone_options_take50 ["UTC", "Asia/Kolkata"]).2.2.2 (by decide)⟩

/-- C9: The Home page carousel renders 19 cards, and its `goNext`
(`(c+1) % 19`) and `goPrev` (`(c−1+19) % 19`) navigation functions are
mutually inverse on {0,…,18} and both map {0,…,18} into {0,…,18}, so
navigation always lands on a rendered card. -/
theorem carousel_nav_involutive :
    wrappedCardKeys.length = 19 ∧
    ∀ c : ℤ, 0 ≤ c → c < 19 →
      goPrev (goNext c) = c ∧ goNext (goPrev c) = c ∧
      0 ≤ goNext c ∧ goNext c < 19 ∧ 0 ≤ goPrev c ∧ goPrev c < 19 := by
  refine ⟨rfl, ?_⟩
  intro c h0 h19
  unfold goNext goPrev
  refine ⟨?_, ?_, ?_, ?_, ?_, ?_⟩ <;> omega

/-- Witness for C9 at card index 5. -/
theorem carousel_nav_involutive_witness :
    goPrev (goNext 5) = 5 ∧ goNext (goPrev 5) = 5 ∧
    0 ≤ goNext 5 ∧ goNext 5 < 19 ∧ 0 ≤ goPrev 5 ∧ goPrev 5 < 19 :=
  carousel_nav_involutive.2 5 (by decide) (by decide)

/-- C5: The full pipeline is deterministic: two runs on the identical
immutable input (event list plus configuration) produce equal output
records and byte-identical serialized text. -/
theorem pipeline_two_runs_identical :
    ∀ (es es' : List Event) (est est' : ℚ), es = es' → est = est' →
      pipeline es est = pipeline es' est' ∧
      serializeOutput (pipeline es est) = serializeOutput (pipeline es' est') := by
  intro es es' est est' h1 h2
  subst h1
  subst h2
  exact ⟨rfl, rfl⟩

/-- Witness for C5: two runs over the empty snapshot with the default
configuration coincide. -/
theorem pipeline_two_runs_identical_witness :
    pipeline [] 4 = pipeline [] 4 ∧
    serializeOutput (pipeline [] 4) = serializeOutput (pipeline [] 4) :=
  pipeline_two_runs_identical [] [] 4 4 rfl rfl

/-- C7: `total_minutes` equals the watch-event count times the per-video
estimate (default 4) rather than being derived from session spans;
`total_hours = round(total_minutes/60)`; `average_daily_minutes` is
`total_minutes` over the distinct active days; and empty input yields all
zeros rather than an error. -/
theorem time_spent_formulas :
    ∀ es : List Event,
      (timeSpent es 4).totalMinutes = ((watchEvents es).length : ℚ) * 4 ∧
      (timeSpent es 4).totalHours = round ((timeSpent es 4).totalMinutes / 60) ∧
      (0 < distinctActiveDays es →
        (timeSpent es 4).averageDailyMinutes =
          (timeSpent es 4).totalMinutes / (distinctActiveDays es : ℚ)) ∧
      (es = [] →
        (timeSpent es 4).totalMinutes = 0 ∧ (timeSpent es 4).totalHours = 0 ∧
        (timeSpent es 4).averageDailyMinutes = 0) := by
  intro es
  refine ⟨rfl, rfl, ?_, ?_⟩
  · intro h
    simp only [timeSpent]
    rw [if_neg (by omega)]
  · rintro rfl
    refine ⟨by norm_num [timeSpent, watchEvents], ?_, by rfl⟩
    simp [timeSpent, watchEvents]

/-- Witness for C7: the average-daily formula at a one-event stream, and
the all-zero conclusion at the empty stream. -/
theorem time_spent_formulas_witness :
    (timeSpent [⟨EType.watch, none, none, some 0, none⟩] 4).averageDailyMinutes =
      (timeSpent [⟨EType.watch, none, none, some 0, none⟩] 4).totalMinutes /
        ((distinctActiveDays [⟨EType.watch, none, none, some 0, none⟩]) : ℚ) ∧
    (timeSpent ([] : List Event) 4).totalMinutes = 0 ∧
    (timeSpent ([] : List Event) 4).totalHours = 0 ∧
    (timeSpent ([] : List Event) 4).averageDailyMinutes = 0 :=
  ⟨(time_spent_formulas [⟨EType.watch, none, none, some 0, none⟩]).2.2.1 (by decide),
   (time_spent_formulas []).2.2.2 rfl⟩

/-- C8: SubscriptionOverlapAnalyzer returns `overlap = S∩W`,
`ghost = S\W`, `unsubscribed_watched = W\S`, with percentages relative to
`|S|`; in particular S={a,b,c}, W={b,d} yields overlap={b}, ghost={a,c},
unsubscribed_watched={d}. -/
theorem subscription_overlap_algebra :
    (∀ S W : Finset String,
       (overlapAnalysis S W).overlap = S ∩ W ∧
       (overlapAnalysis S W).ghost = S \ W ∧
       (overlapAnalysis S W).unsubscribedWatched = W \ S ∧
       (0 < S.card →
         (overlapAnalysis S W).overlapPercentage =
           ((S ∩ W).card : ℚ) / (S.card : ℚ) * 100)) ∧
    ((overlapAnalysis {"a", "b", "c"} {"b", "d"}).overlap = {"b"} ∧
     (overlapAnalysis {"a", "b", "c"} {"b", "d"}).ghost = {"a", "c"} ∧
     (overlapAnalysis {"a", "b", "c"} {"b", "d"}).unsubscribedWatched = {"d"}) := by
  constructor
  · intro S W
    refine ⟨rfl, rfl, rfl, ?_⟩
    intro h
    simp only [overlapAnalysis]
    rw [if_neg (by omega)]
  · exact ⟨by decide, by decide, by decide⟩

/-- Witness for C8: the overlap percentage at the concrete pair of sets,
with the nonempty-subscriptions hypothesis discharged. -/
theorem subscription_overlap_algebra_witness :
    (overlapAnalysis {"a", "b", "c"} {"b", "d"}).overlapPercentage =
      ((({"a", "b", "c"} : Finset String) ∩ {"b", "d"}).card : ℚ) /
        (({"a", "b", "c"} : Finset String).card : ℚ) * 100 :=
  (subscription_overlap_algebra.1 {"a", "b", "c"} {"b", "d"}).2.2.2 (by decide)

/-- C3: For a channel watched on 5 strictly consecutive dates, then a gap
of at least one missing date, then 3 more strictly consecutive dates,
HabitTracker (gap tolerance 0, minimum qualifying length 3) produces
exactly the two qualifying streaks [5, 3], `longest_streak = 5`, and
`total_habit_days = 8`. -/
theorem habit_two_streaks :
    ∀ a b : Nat, a + 6 ≤ b →
      qualifyingStreaks 3 [a, a + 1, a + 2, a + 3, a + 4, b, b + 1, b + 2] = [5, 3] ∧
      longestStreak [a, a + 1, a + 2, a + 3, a + 4, b, b + 1, b + 2] = 5 ∧
      totalHabitDays 3 [a, a + 1, a + 2, a + 3, a + 4, b, b + 1, b + 2] = 8 := by
  intro a b hab
  have hrl : runLengths 0 [a, a + 1, a + 2, a + 3, a + 4, b, b + 1, b + 2] = [5, 3] := by
    have step : ∀ prev len d ds, runLengthsAux 0 prev len (d :: ds) =
        if d ≤ prev + 0 + 1 then runLengthsAux 0 d (len + 1) ds
        else len :: runLengthsAux 0 d 1 ds := fun _ _ _ _ => rfl
    have base : ∀ prev len, runLengthsAux 0 prev len [] = [len] := fun _ _ => rfl
    show runLengthsAux 0 a 1 [a + 1, a + 2, a + 3, a + 4, b, b + 1, b + 2] = [5, 3]
    rw [step, if_pos (by omega : a + 1 ≤ a + 0 + 1)]
    rw [step, if_pos (by omega : a + 2 ≤ a + 1 + 0 + 1)]
    rw [step, if_pos (by omega : a + 3 ≤ a + 2 + 0 + 1)]
    rw [step, if_pos (by omega : a + 4 ≤ a + 3 + 0 + 1)]
    rw [step, if_neg (by omega : ¬ b ≤ a + 4 + 0 + 1)]
    rw [step, if_pos (by omega : b + 1 ≤ b + 0 + 1)]
    rw [step, if_pos (by omega : b + 2 ≤ b + 1 + 0 + 1)]
    rw [base]
  have hq : qualifyingStreaks 3 [a, a + 1, a + 2, a + 3, a + 4, b, b + 1, b + 2] = [5, 3] := by
    rw [qualifyingStreaks, hrl]
    rfl
  refine ⟨hq, ?_, ?_⟩
  · rw [longestStreak, hrl]
    rfl
  · rw [totalHabitDays, hq]
    rfl

/-- Witness for C3 at a = 0, b = 6: dates 0–4 then 6–8. -/
theorem habit_two_streaks_witness :
    qualifyingStreaks 3 [0, 0 + 1, 0 + 2, 0 + 3, 0 + 4, 6, 6 + 1, 6 + 2] = [5, 3] ∧
    longestStreak [0, 0 + 1, 0 + 2, 0 + 3, 0 + 4, 6, 6 + 1, 6 + 2] = 5 ∧
    totalHabitDays 3 [0, 0 + 1, 0 + 2, 0 + 3, 0 + 4, 6, 6 + 1, 6 + 2] = 8 :=
  habit_two_streaks 0 6 (by decide)

/-! ### Baseline-statistics helper lemmas -/

lemma sampleVar_nonneg (t : List DayTally) : 0 ≤ sampleVar t := by
  rw [sampleVar]
  split_ifs
  · exact le_refl 0
  · apply div_nonneg
    · apply List.sum_nonneg
      intro x hx
      obtain ⟨d, _, rfl⟩ := List.mem_map.mp hx
      positivity
    · have h2 : 2 ≤ t.length := by omega
      have h2q : (2 : ℚ) ≤ (t.length : ℚ) := by exact_mod_cast h2
      linarith

/-- The squared threshold comparison is the square-root comparison:
`m + 2·√v < c` iff `m < c` and `4·v < (c − m)²`, for nonnegative `v`. -/
lemma lt_mean_add_two_sqrt_iff (m v c : ℝ) (hv : 0 ≤ v) :
    m + 2 * Real.sqrt v < c ↔ m < c ∧ 4 * v < (c - m) ^ 2 := by
  have hs := Real.sqrt_nonneg v
  have hsq := Real.sq_sqrt hv
  constructor
  · intro hlt
    have h1 : m < c := by linarith
    have h2 : 2 * Real.sqrt v < c - m := by linarith
    exact ⟨h1, by nlinarith [hsq, hs, h2]⟩
  · rintro ⟨h1, h2⟩
    by_contra hc
    push_neg at hc
    have h3 : c - m ≤ 2 * Real.sqrt v := by linarith
    nlinarith [hsq, hs, h3, h1]

/-- The decidable binge flag agrees with the spec's wording
`daily_count > mean + 2·stddev AND daily_count ≥ 10`, where
`stddev = √(sample variance)`. -/
lemma binge_qualifies_iff_sqrt (t : List DayTally) (c : Nat) :
    bingeQualifies t c = true ↔
      ((meanQ t : ℝ) + 2 * Real.sqrt ((sampleVar t : ℝ)) < (c : ℝ) ∧ 10 ≤ c) := by
  have hv : (0 : ℝ) ≤ ((sampleVar t : ℝ)) := by exact_mod_cast sampleVar_nonneg t
  rw [lt_mean_add_two_sqrt_iff _ _ _ hv]
  simp only [bingeQualifies, Bool.and_eq_true, decide_eq_true_eq]
  constructor
  · rintro ⟨⟨h10, hm⟩, hvar⟩
    exact ⟨⟨by exact_mod_cast hm, by exact_mod_cast hvar⟩, h10⟩
  · rintro ⟨⟨hm, hvar⟩, h10⟩
    exact ⟨⟨h10, by exact_mod_cast hm⟩, by exact_mod_cast hvar⟩

lemma meanQ_exampleTable : meanQ exampleTable = 19 / 5 := by
  norm_num [meanQ, exampleTable]

lemma sampleVar_exampleTable : sampleVar exampleTable = 162 / 5 := by
  simp only [sampleVar, meanQ_exampleTable]
  norm_num [exampleTable]

lemma bingeQualifies_exampleTable_20 : bingeQualifies exampleTable 20 = true := by
  simp only [bingeQualifies, meanQ_exampleTable, sampleVar_exampleTable]
  norm_num

lemma bingeQualifies_exampleTable_2 : bingeQualifies exampleTable 2 = false := by
  simp only [bingeQualifies, meanQ_exampleTable, sampleVar_exampleTable]
  norm_num

lemma filter_exampleTable (p : DayTally → Bool)
    (h0 : p ⟨0, 2⟩ = false) (h1 : p ⟨1, 2⟩ = false) (h2 : p ⟨2, 2⟩ = false)
    (h3 : p ⟨3, 2⟩ = false) (h4 : p ⟨4, 2⟩ = false) (h5 : p ⟨5, 2⟩ = false)
    (h6 : p ⟨6, 2⟩ = false) (h7 : p ⟨7, 2⟩ = false) (h8 : p ⟨8, 2⟩ = false)
    (h9 : p ⟨9, 20⟩ = true) :
    exampleTable.filter p = [⟨9, 20⟩] := by
  simp [exampleTable, List.filter_cons, h0, h1, h2, h3, h4, h5, h6, h7, h8, h9]

lemma bingeRecordOf_exampleTable :
    bingeRecordOf exampleTable ⟨9, 20⟩ = ⟨9, 100 / 19, Severity.high⟩ := by
  simp only [bingeRecordOf, meanQ_exampleTable]
  norm_num

lemma bingeRecords_exampleTable :
    bingeRecords exampleTable = [⟨9, 100 / 19, Severity.high⟩] := by
  rw [bingeRecords, if_neg (by rw [meanQ_exampleTable]; norm_num)]
  rw [filter_exampleTable _ bingeQualifies_exampleTable_2 bingeQualifies_exampleTable_2
    bingeQualifies_exampleTable_2 bingeQualifies_exampleTable_2 bingeQualifies_exampleTable_2
    bingeQualifies_exampleTable_2 bingeQualifies_exampleTable_2 bingeQualifies_exampleTable_2
    bingeQualifies_exampleTable_2 bingeQualifies_exampleTable_20]
  rw [List.map_cons, List.map_nil, bingeRecordOf_exampleTable]

/-- C6: For nine days with count 2 and one day with count 20,
BaselineStatistics gives mean = 3.8 and sample stddev ≈ 5.75 (the exact
value is √32.4 ≈ 5.69), so the binge threshold is ≈ 15.3 (exactly
≈ 15.18) and in particular below 20; the count-20 date is flagged binge
with multiplier 100/19 ≈ 5.26 and severity high. -/
theorem nine_twos_one_twenty :
    meanQ exampleTable = 19 / 5 ∧
    sampleVar exampleTable = 162 / 5 ∧
    |Real.sqrt ((sampleVar exampleTable : ℝ)) - 5.75| < 0.1 ∧
    ((meanQ exampleTable : ℝ) + 2 * Real.sqrt ((sampleVar exampleTable : ℝ)) < 20 ∧
     |(meanQ exampleTable : ℝ) + 2 * Real.sqrt ((sampleVar exampleTable : ℝ)) - 15.3| < 0.2) ∧
    bingeQualifies exampleTable 20 = true ∧
    bingeRecords exampleTable = [⟨9, 100 / 19, Severity.high⟩] ∧
    |(100 / 19 : ℚ) - 5.26| < 1 / 100 := by
  have e0 : ((meanQ exampleTable : ℝ)) = 19 / 5 := by rw [meanQ_exampleTable]; norm_num
  have e1 : ((sampleVar exampleTable : ℝ)) = 162 / 5 := by rw [sampleVar_exampleTable]; norm_num
  have lb : (5.65 : ℝ) < Real.sqrt (162 / 5) := by
    rw [show (5.65 : ℝ) = Real.sqrt (5.65 ^ 2) by rw [Real.sqrt_sq (by norm_num)]]
    apply Real.sqrt_lt_sqrt <;> norm_num
  have ub : Real.sqrt (162 / 5) < 5.85 := by
    rw [show (5.85 : ℝ) = Real.sqrt (5.85 ^ 2) by rw [Real.sqrt_sq (by norm_num)]]
    apply Real.sqrt_lt_sqrt <;> norm_num
  refine ⟨meanQ_exampleTable, sampleVar_exampleTable, ?_, ⟨?_, ?_⟩,
    bingeQualifies_exampleTable_20, bingeRecords_exampleTable, ?_⟩
  · rw [e1, abs_lt]
    exact ⟨by linarith, by linarith⟩
  · rw [e0, e1]
    linarith
  · rw [e0, e1, abs_lt]
    exact ⟨by linarith, by linarith⟩
  · rw [abs_lt]
    constructor <;> norm_num

/-- C1: A date of the daily-count table is flagged binge iff its count
exceeds `mean + 2·stddev` and is at least 10; when the mean is positive
the produced record's multiplier is `count/mean` with severity high
exactly when the multiplier is at least 3; when the mean is zero no
record is produced. -/
theorem binge_flag_characterization :
    ∀ t : List DayTally,
      (meanQ t = 0 → bingeRecords t = []) ∧
      (0 < meanQ t → ∀ d ∈ t,
        (bingeRecordOf t d ∈ bingeRecords t ↔
          ((meanQ t : ℝ) + 2 * Real.sqrt ((sampleVar t : ℝ)) < (d.count : ℝ) ∧
            10 ≤ d.count))) ∧
      (∀ r ∈ bingeRecords t, (r.severity = Severity.high ↔ 3 ≤ r.multiplier)) := by
  intro t
  refine ⟨?_, ?_, ?_⟩
  · intro h
    rw [bingeRecords, if_pos h]
  · intro hm d hd
    rw [← binge_qualifies_iff_sqrt]
    rw [bingeRecords, if_neg (ne_of_gt hm)]
    constructor
    · intro hmem
      rw [List.mem_map] at hmem
      obtain ⟨d', hd', heq⟩ := hmem
      rw [List.mem_filter] at hd'
      have hmul : (d'.count : ℚ) / meanQ t = (d.count : ℚ) / meanQ t :=
        congrArg BingeRecord.multiplier heq
      have hq : (d'.count : ℚ) = (d.count : ℚ) := by
        have h2 : (d'.count : ℚ) / meanQ t * meanQ t = (d.count : ℚ) / meanQ t * meanQ t := by
          rw [hmul]
        rw [div_mul_cancel₀ _ (ne_of_gt hm), div_mul_cancel₀ _ (ne_of_gt hm)] at h2
        exact h2
      have hcount : d'.count = d.count := by exact_mod_cast hq
      rw [← hcount]
      exact hd'.2
    · intro hq
      exact List.mem_map_of_mem _ (List.mem_filter.mpr ⟨hd, hq⟩)
  · intro r hr
    rw [bingeRecords] at hr
    split_ifs at hr with hm
    · exact absurd hr (List.not_mem_nil r)
    · rw [List.mem_map] at hr
      obtain ⟨d', _, rfl⟩ := hr
      simp only [bingeRecordOf]
      split_ifs with h3
      · simp [h3]
      · simp [h3]

/-- Witness for C1: the empty table has mean 0 and produces no records;
on the spec §8 table the count-20 date's membership equivalence and the
severity characterization are instantiated. -/
theorem binge_flag_characterization_witness :
    bingeRecords [] = [] ∧
    ((bingeRecordOf exampleTable ⟨9, 20⟩ ∈ bingeRecords exampleTable) ↔
      ((meanQ exampleTable : ℝ) + 2 * Real.sqrt ((sampleVar exampleTable : ℝ)) < ((20 : Nat) : ℝ) ∧
        10 ≤ (20 : Nat))) ∧
    ((bingeRecordOf exampleTable ⟨9, 20⟩).severity = Severity.high ↔
      3 ≤ (bingeRecordOf exampleTable ⟨9, 20⟩).multiplier) :=
  ⟨(binge_flag_characterization []).1 rfl,
   (binge_flag_characterization exampleTable).2.1
     (by rw [meanQ_exampleTable]; norm_num) ⟨9, 20⟩ (by simp [exampleTable]),
   (binge_flag_characterization exampleTable).2.2 (bingeRecordOf exampleTable ⟨9, 20⟩)
     (by rw [bingeRecords_exampleTable, bingeRecordOf_exampleTable]; exact List.mem_singleton.mpr rfl)⟩

/-! ### TimeBucketAggregator helper lemmas -/

lemma sum_map_range_eq (f : Nat → Nat) (n : Nat) :
    ((List.range n).map f).sum = ∑ i ∈ Finset.range n, f i := by
  induction n with
  | zero => simp
  | succ m ih =>
    rw [List.range_succ, List.map_append, List.sum_append, Finset.sum_range_succ, ih]
    simp

lemma sum_countP_val {n : Nat} (l : List (Fin n)) :
    (∑ h ∈ Finset.range n, l.countP (fun x => decide (x.val = h))) = l.length := by
  induction l with
  | nil => simp
  | cons x xs ih =>
    simp only [List.countP_cons]
    rw [Finset.sum_add_distrib, ih]
    have h1 : (∑ h ∈ Finset.range n, if (decide (x.val = h)) = true then 1 else 0) = 1 := by
      simp only [decide_eq_true_eq]
      rw [Finset.sum_ite_eq]
      simp [x.isLt]
    rw [h1, List.length_cons]

lemma watchHours_length (es : List Event) :
    (watchHours es).length =
      es.countP (fun e => decide (e.etype = EType.watch) && e.hourLocal.isSome) := by
  rw [watchHours, watchEvents, List.length_filterMap_eq_countP, List.countP_filter]
  have hfun : (fun e : Event => e.hourLocal.isSome && decide (e.etype = EType.watch)) =
      (fun e : Event => decide (e.etype = EType.watch) && e.hourLocal.isSome) :=
    funext fun e => Bool.and_comm _ _
  rw [hfun]

lemma find?_range'_first (p : Nat → Bool) :
    ∀ (n s a : Nat), (List.range' s n).find? p = some a →
      p a = true ∧ ∀ b, s ≤ b → b < a → p b = false := by
  intro n
  induction n with
  | zero =>
    intro s a h
    simp [List.range'_zero] at h
  | succ m ih =>
    intro s a h
    rw [List.range'_succ] at h
    by_cases hp : p s = true
    · rw [List.find?_cons_of_pos _ hp] at h
      injection h with h'
      subst h'
      exact ⟨hp, fun b hsb hba => absurd (Nat.lt_of_le_of_lt hsb hba) (Nat.lt_irrefl s)⟩
    · have hp' : p s = false := Bool.eq_false_iff.mpr hp
      rw [List.find?_cons_of_neg _ hp] at h
      obtain ⟨h1, h2⟩ := ih (s + 1) a h
      refine ⟨h1, ?_⟩
      intro b hsb hba
      rcases Nat.eq_or_lt_of_le hsb with rfl | hlt
      · exact hp'
      · exact h2 b hlt hba

lemma find?_range_first (p : Nat → Bool) (n a : Nat)
    (h : (List.range n).find? p = some a) :
    p a = true ∧ ∀ b, b < a → p b = false := by
  rw [List.range_eq_range'] at h
  obtain ⟨h1, h2⟩ := find?_range'_first p n 0 a h
  exact ⟨h1, fun b hb => h2 b (Nat.zero_le b) hb⟩

/-- C2: The 24 hourly slots sum to the number of watch events with a
non-null `hour_local`; the peak hour is a maximiser and every strictly
lower index has a strictly smaller count (so ties resolve to the lowest
index); and zero watch events produce all-zero distributions and null
peaks rather than an error. -/
theorem watch_patterns_properties :
    ∀ es : List Event,
      (hourlyDistribution es).sum =
        es.countP (fun e => decide (e.etype = EType.watch) && e.hourLocal.isSome) ∧
      (∀ h : Nat, peakHour es = some h →
        (∀ h', h' < 24 → hourCount es h' ≤ hourCount es h) ∧
        (∀ h', h' < h → hourCount es h' < hourCount es h)) ∧
      (watchEvents es = [] →
        (∀ x ∈ hourlyDistribution es, x = 0) ∧
        (∀ x ∈ dailyDistribution es, x = 0) ∧
        peakHour es = none ∧ peakDay es = none) := by
  intro es
  refine ⟨?_, ?_, ?_⟩
  · rw [hourlyDistribution, sum_map_range_eq, ← watchHours_length]
    simp only [hourCount]
    exact sum_countP_val (watchHours es)
  · intro h hph
    rw [peakHour] at hph
    split_ifs at hph with hemp
    obtain ⟨hpa, hlow⟩ := find?_range_first _ _ _ hph
    have hmax : ∀ h' ∈ List.range 24, hourCount es h' ≤ hourCount es h :=
      of_decide_eq_true hpa
    refine ⟨fun h' hh' => hmax h' (List.mem_range.mpr hh'), ?_⟩
    intro h' hh'
    have hf := hlow h' hh'
    have hnot : ¬ ∀ x ∈ List.range 24, hourCount es x ≤ hourCount es h' :=
      of_decide_eq_false hf
    push_neg at hnot
    obtain ⟨x, hx, hgt⟩ := hnot
    have hxh := hmax x hx
    omega
  · intro hwe
    have hwh : watchHours es = [] := by rw [watchHours, hwe, List.filterMap_nil]
    have hwd : watchDays es = [] := by rw [watchDays, hwe, List.filterMap_nil]
    refine ⟨?_, ?_, ?_, ?_⟩
    · intro x hx
      obtain ⟨h, _, rfl⟩ := List.mem_map.mp hx
      rw [hourCount, hwh]
      rfl
    · intro x hx
      obtain ⟨d, _, rfl⟩ := List.mem_map.mp hx
      rw [dayCount, hwd]
      rfl
    · rw [peakHour, if_pos hwh]
    · rw [peakDay, if_pos hwd]

/-- Witness for C2: on the four-event tie stream the peak hour is 1 (the
lower of the tying hours 1 and 3), with the maximality and strictness
conclusions instantiated at hours 3 and 0, and on the empty stream the
peaks are null. -/
theorem watch_patterns_properties_witness :
    (hourlyDistribution esTie).sum =
      esTie.countP (fun e => decide (e.etype = EType.watch) && e.hourLocal.isSome) ∧
    hourCount esTie 3 ≤ hourCount esTie 1 ∧
    hourCount esTie 0 < hourCount esTie 1 ∧
    peakHour ([] : List Event) = none ∧ peakDay ([] : List Event) = none :=
  ⟨(watch_patterns_properties esTie).1,
   ((watch_patterns_properties esTie).2.1 1 (by decide)).1 3 (by decide),
   ((watch_patterns_properties esTie).2.1 1 (by decide)).2 0 (by decide),
   ((watch_patterns_properties []).2.2 rfl).2.2.1,
   ((watch_patterns_properties []).2.2 rfl).2.2.2⟩

/-! ### PatternMiner ranking helper lemmas -/

lemma rankLE_refl (r : Rule) : rankLE r r = true := by
  simp [rankLE]

lemma rankLE_total (r s : Rule) : rankLE r s = true ∨ rankLE s r = true := by
  simp only [rankLE, decide_eq_true_eq]
  rcases lt_trichotomy s.lift r.lift with h | h | h
  · exact Or.inl (Or.inl h)
  · rcases lt_trichotomy s.confidence r.confidence with h2 | h2 | h2
    · exact Or.inl (Or.inr ⟨h, Or.inl h2⟩)
    · rcases le_total s.support r.support with h3 | h3
      · exact Or.inl (Or.inr ⟨h, Or.inr ⟨h2, h3⟩⟩)
      · exact Or.inr (Or.inr ⟨h.symm, Or.inr ⟨h2.symm, h3⟩⟩)
    · exact Or.inr (Or.inr ⟨h.symm, Or.inl h2⟩)
  · exact Or.inr (Or.inl h)

lemma rankLE_trans (r s t : Rule) (h1 : rankLE r s = true) (h2 : rankLE s t = true) :
    rankLE r t = true := by
  simp only [rankLE, decide_eq_true_eq] at h1 h2 ⊢
  rcases h1 with h1 | ⟨e1, h1⟩
  · rcases h2 with h2 | ⟨e2, _⟩
    · exact Or.inl (lt_trans h2 h1)
    · exact Or.inl (by rw [e2]; exact h1)
  · rcases h2 with h2 | ⟨e2, h2⟩
    · exact Or.inl (by rw [← e1]; exact h2)
    · refine Or.inr ⟨e2.trans e1, ?_⟩
      rcases h1 with h1 | ⟨f1, h1⟩
      · rcases h2 with h2 | ⟨f2, _⟩
        · exact Or.inl (lt_trans h2 h1)
        · exact Or.inl (by rw [f2]; exact h1)
      · rcases h2 with h2 | ⟨f2, h2⟩
        · exact Or.inl (by rw [← f1]; exact h2)
        · exact Or.inr ⟨f2.trans f1, le_trans h2 h1⟩

lemma insertRanked_perm (r : Rule) (l : List Rule) : List.Perm (insertRanked r l) (r :: l) := by
  induction l with
  | nil => exact List.Perm.refl _
  | cons s t ih =>
    rw [insertRanked]
    split_ifs with hc
    · exact List.Perm.trans (List.Perm.cons s ih) (List.Perm.swap r s t)
    · exact List.Perm.refl _

lemma sortRanked_perm (l : List Rule) : List.Perm (sortRanked l) l := by
  induction l with
  | nil => exact List.Perm.refl _
  | cons r t ih =>
    rw [sortRanked]
    exact List.Perm.trans (insertRanked_perm r _) (List.Perm.cons r ih)

lemma insertRanked_pairwise (r : Rule) (l : List Rule)
    (hl : l.Pairwise (fun a b => rankLE a b = true)) :
    (insertRanked r l).Pairwise (fun a b => rankLE a b = true) := by
  induction l with
  | nil => simp [insertRanked]
  | cons s t ih =>
    rw [List.pairwise_cons] at hl
    obtain ⟨hs, ht⟩ := hl
    rw [insertRanked]
    split_ifs with hc
    · rw [List.pairwise_cons]
      refine ⟨?_, ih ht⟩
      intro b hb
      have hb' : b ∈ r :: t := (insertRanked_perm r t).mem_iff.mp hb
      rcases List.mem_cons.mp hb' with rfl | hbt
      · have hc' := hc
        simp only [Bool.and_eq_true] at hc'
        exact hc'.1
      · exact hs b hbt
    · rw [List.pairwise_cons]
      constructor
      · intro b hb
        have hrs : rankLE r s = true := by
          rcases rankLE_total r s with h | h
          · exact h
          · by_contra hneg
            apply hc
            rw [h, Bool.eq_false_iff.mpr hneg]
            rfl
        rcases List.mem_cons.mp hb with rfl | hbt
        · exact hrs
        · exact rankLE_trans r s b hrs (hs b hbt)
      · exact List.pairwise_cons.mpr ⟨hs, ht⟩

lemma sortRanked_pairwise (l : List Rule) :
    (sortRanked l).Pairwise (fun a b => rankLE a b = true) := by
  induction l with
  | nil => simp [sortRanked]
  | cons r t ih =>
    rw [sortRanked]
    exact insertRanked_pairwise r _ ih

lemma mem_take_of_rank_count (r : Rule) :
    ∀ (l : List Rule) (k : Nat), r ∈ l →
      l.Pairwise (fun a b => rankLE a b = true) →
      l.countP (fun x => rankLE x r) ≤ k → r ∈ l.take k := by
  intro l
  induction l with
  | nil =>
    intro k h
    exact absurd h (List.not_mem_nil r)
  | cons s t ih =>
    intro k hmem hpw hcount
    rw [List.pairwise_cons] at hpw
    obtain ⟨hs, ht⟩ := hpw
    rw [List.countP_cons] at hcount
    rcases List.mem_cons.mp hmem with rfl | hmt
    · simp only [rankLE_refl, if_pos] at hcount
      obtain ⟨k', rfl⟩ : ∃ k', k = k' + 1 := ⟨k - 1, by omega⟩
      rw [List.take_succ_cons]
      exact List.mem_cons_self _ _
    · have hsr : rankLE s r = true := hs r hmt
      have hposc : 0 < t.countP (fun x => rankLE x r) :=
        List.countP_pos.mpr ⟨r, hmt, by simpa using rankLE_refl r⟩
      simp only [hsr, if_pos] at hcount
      obtain ⟨k', rfl⟩ : ∃ k', k = k' + 1 := ⟨k - 1, by omega⟩
      rw [List.take_succ_cons]
      exact List.mem_cons_of_mem _ (ih k' hmt ht (by omega))

/-- A rule of the kept set whose rank ties or beats all but at most three
of the kept rules (itself included) appears in the top-4 output. -/
lemma mem_topRules_of_count (ts : List Txn) (r : Rule)
    (hk : r ∈ keptRules ts)
    (hc : (keptRules ts).countP (fun x => rankLE x r) ≤ 4) :
    r ∈ topRules ts := by
  rw [topRules]
  apply mem_take_of_rank_count r (sortRanked (keptRules ts)) 4
  · exact (sortRanked_perm _).mem_iff.mpr hk
  · exact sortRanked_pairwise _
  · rw [List.Perm.countP_eq _ (sortRanked_perm (keptRules ts))]
    exact hc

/-- A rule strictly outranked by at least four kept rules cannot appear
in the top-4 output. -/
lemma not_mem_topRules_of_four_above (ts : List Txn) (r : Rule)
    (h4 : 4 ≤ (keptRules ts).countP (fun x => !(rankLE r x))) :
    r ∉ topRules ts := by
  intro hmem
  rw [topRules] at hmem
  have hsorted := sortRanked_pairwise (keptRules ts)
  have hcount : 4 ≤ (sortRanked (keptRules ts)).countP (fun x => !(rankLE r x)) := by
    rw [List.Perm.countP_eq _ (sortRanked_perm (keptRules ts))]
    exact h4
  obtain ⟨i, hi, hgeti⟩ := List.mem_iff_getElem.mp hmem
  have hi4 : i < 4 := lt_of_lt_of_le hi (by rw [List.length_take]; exact min_le_left _ _)
  have hil : i < (sortRanked (keptRules ts)).length := by
    rw [List.length_take, lt_min_iff] at hi
    exact hi.2
  have hgeti' : (sortRanked (keptRules ts))[i] = r := by
    rw [← hgeti, List.getElem_take]
  set l' := sortRanked (keptRules ts) with hl'
  -- split l' at position i+1 and count on each side
  have hsplit := List.take_append_drop (i + 1) l'
  have hcsplit : l'.countP (fun x => !(rankLE r x)) =
      (l'.take (i + 1)).countP (fun x => !(rankLE r x)) +
      (l'.drop (i + 1)).countP (fun x => !(rankLE r x)) := by
    rw [← List.countP_append, hsplit]
  -- the suffix after r is all ranked at or below r
  have hpw := hsorted
  rw [← hsplit] at hpw
  obtain ⟨-, -, hcross⟩ := List.pairwise_append.mp hpw
  have hrtake : r ∈ l'.take (i + 1) := by
    have hlen : i < (l'.take (i + 1)).length := by
      rw [List.length_take, lt_min_iff]
      exact ⟨Nat.lt_succ_self i, hil⟩
    have : (l'.take (i + 1))[i] = r := by rw [List.getElem_take]; exact hgeti'
    rw [← this]
    exact List.getElem_mem hlen
  have hdropz : (l'.drop (i + 1)).countP (fun x => !(rankLE r x)) = 0 := by
    rw [List.countP_eq_zero]
    intro x hx
    have hrx := hcross r hrtake x hx
    simp [hrx]
  -- the prefix of length i+1 ends in r, which does not satisfy the predicate
  have htake1 : (l'.take (i + 1)).countP (fun x => !(rankLE r x)) ≤ i := by
    rw [List.take_succ]
    have hsome : l'[i]? = some r := by
      rw [List.getElem?_eq_getElem hil, hgeti']
    rw [hsome]
    rw [List.countP_append]
    have h1 : (l'.take i).countP (fun x => !(rankLE r x)) ≤ i := by
      calc (l'.take i).countP (fun x => !(rankLE r x)) ≤ (l'.take i).length :=
            List.countP_le_length _
        _ ≤ i := by rw [List.length_take]; exact min_le_left _ _
    have h2 : ([r] : List Rule).countP (fun x => !(rankLE r x)) = 0 := by
      rw [List.countP_eq_zero]
      intro x hx
      rw [List.mem_singleton.mp hx]
      simp [rankLE_refl]
    simp only [Option.toList_some]
    omega
  omega

lemma four_le_countP_of_members (p : Rule → Bool) (l : List Rule) (b1 b2 b3 b4 : Rule)
    (h12 : b1 ≠ b2) (h13 : b1 ≠ b3) (h14 : b1 ≠ b4)
    (h23 : b2 ≠ b3) (h24 : b2 ≠ b4) (h34 : b3 ≠ b4)
    (hm1 : b1 ∈ l) (hm2 : b2 ∈ l) (hm3 : b3 ∈ l) (hm4 : b4 ∈ l)
    (hp1 : p b1 = true) (hp2 : p b2 = true) (hp3 : p b3 = true) (hp4 : p b4 = true) :
    4 ≤ l.countP p := by
  have hsub : [b1, b2, b3, b4] ⊆ l.filter p := by
    intro x hx
    simp only [List.mem_cons, List.not_mem_nil, or_false] at hx
    rcases hx with rfl | rfl | rfl | rfl
    · exact List.mem_filter.mpr ⟨hm1, hp1⟩
    · exact List.mem_filter.mpr ⟨hm2, hp2⟩
    · exact List.mem_filter.mpr ⟨hm3, hp3⟩
    · exact List.mem_filter.mpr ⟨hm4, hp4⟩
  have hnd : ([b1, b2, b3, b4] : List Rule).Nodup := by
    simp [h12, h13, h14, h23, h24, h34]
  have hsp := (List.Nodup.subperm hnd hsub).length_le
  rw [List.countP_eq_length_filter]
  simpa using hsp

/-! ### PatternMiner rule-evaluation lemmas -/

lemma mkRule_support (ts : List Txn) (t : TItem) (c : String) (n : Nat)
    (hTC : occTC ts t c = n) :
    (mkRule ts t c).support = (n : ℚ) / (ts.length : ℚ) := by
  simp only [mkRule, hTC]

lemma mkRule_confidence (ts : List Txn) (t : TItem) (c : String) (n L : Nat)
    (hTC : occTC ts t c = n) (hT : occT ts t = n) (hL : ts.length = L)
    (hn : 0 < n) (hLpos : 0 < L) :
    (mkRule ts t c).confidence = 1 := by
  have hQ : ((n : ℚ) / (L : ℚ)) ≠ 0 := by
    apply div_ne_zero
    · exact_mod_cast Nat.pos_iff_ne_zero.mp hn
    · exact_mod_cast Nat.pos_iff_ne_zero.mp hLpos
  simp only [mkRule, hTC, hT, hL]
  rw [div_self hQ]

lemma mkRule_lift (ts : List Txn) (t : TItem) (c : String) (n L : Nat)
    (hTC : occTC ts t c = n) (hT : occT ts t = n) (hC : occC ts c = n)
    (hL : ts.length = L) (hn : 0 < n) (hLpos : 0 < L) :
    (mkRule ts t c).lift = (L : ℚ) / (n : ℚ) := by
  have hQ : ((n : ℚ) / (L : ℚ)) ≠ 0 := by
    apply div_ne_zero
    · exact_mod_cast Nat.pos_iff_ne_zero.mp hn
    · exact_mod_cast Nat.pos_iff_ne_zero.mp hLpos
  simp only [mkRule, hTC, hT, hC, hL]
  rw [div_self hQ, one_div_div]

lemma keepRule_true_counts (ts : List Txn) (t : TItem) (c : String) (n L : Nat)
    (hTC : occTC ts t c = n) (hT : occT ts t = n) (hL : ts.length = L)
    (h3 : 3 ≤ n) (h20 : L ≤ 20 * n) (hLpos : 0 < L) :
    keepRule (mkRule ts t c) = true := by
  have hn : 0 < n := by omega
  have hQ : ((n : ℚ) / (L : ℚ)) ≠ 0 := by
    apply div_ne_zero
    · exact_mod_cast Nat.pos_iff_ne_zero.mp hn
    · exact_mod_cast Nat.pos_iff_ne_zero.mp hLpos
  simp only [keepRule, mkRule, hTC, hT, hL, Bool.and_eq_true, decide_eq_true_eq]
  refine ⟨⟨?_, h3⟩, ?_⟩
  · rw [div_le_div_iff (by norm_num) (by exact_mod_cast hLpos)]
    have hc : (L : ℚ) ≤ 20 * (n : ℚ) := by exact_mod_cast h20
    linarith
  · rw [div_self hQ]
    norm_num

lemma keepRule_false_of_no_support (ts : List Txn) (t : TItem) (c : String)
    (h : occTC ts t c = 0) :
    keepRule (mkRule ts t c) = false := by
  have hz : (mkRule ts t c).support = 0 := by
    simp only [mkRule, h]
    norm_num
  have hd : decide ((1 / 20 : ℚ) ≤ (mkRule ts t c).support) = false := by
    rw [hz]
    apply decide_eq_false
    norm_num
  rw [keepRule, hd, Bool.false_and, Bool.false_and]

lemma rankLE_false_of_lift_lt (r s : Rule) (h : r.lift < s.lift) : rankLE r s = false := by
  apply decide_eq_false
  rintro (h2 | ⟨h2, -⟩)
  · exact absurd h (not_lt_of_gt h2)
  · rw [h2] at h
    exact absurd h (lt_irrefl _)

/-- C4 (amended): For a transaction set in which channel A is an item of
every one of the exactly-4 Saturday transactions and of no other
transaction, the rule (day_of_week=Saturday → channel=A) has
`support = 4/total_transactions` and `confidence = 1.0`; if moreover the
total transaction count is at most 80 (so the rule passes the default
`min_support = 0.05` filter), the rule is among the kept rules, and it
appears in the returned top-4 output provided at most 4 kept rules
(itself included) rank at least as high under the (lift, confidence,
support) ordering. -/
theorem saturday_rule_in_top :
    ∀ ts : List Txn,
      ts.countP (fun x => decide (x.day = (5 : Fin 7))) = 4 →
      (∀ x ∈ ts, x.day = (5 : Fin 7) → hasC "A" x = true) →
      (∀ x ∈ ts, hasC "A" x = true → x.day = (5 : Fin 7)) →
      (satRuleOf ts).support = 4 / (ts.length : ℚ) ∧
      (satRuleOf ts).confidence = 1 ∧
      (ts.length ≤ 80 →
        satRuleOf ts ∈ keptRules ts ∧
        ((keptRules ts).countP (fun x => rankLE x (satRuleOf ts)) ≤ 4 →
          satRuleOf ts ∈ topRules ts)) := by
  intro ts h4 hA hOnly
  have hTpos : 0 < ts.length := by
    have hle : ts.countP (fun x => decide (x.day = (5 : Fin 7))) ≤ ts.length :=
      List.countP_le_length _
    omega
  have hoccT : occT ts (TItem.day 5) = 4 := h4
  have hoccTC : occTC ts (TItem.day 5) "A" = 4 := by
    rw [occTC]
    have hiff : ∀ x ∈ ts,
        (hasT (TItem.day 5) x && hasC "A" x) = true ↔
        (decide (x.day = (5 : Fin 7))) = true := by
      intro x hx
      simp only [Bool.and_eq_true, hasT, decide_eq_true_eq]
      constructor
      · rintro ⟨hd, -⟩
        exact hd
      · intro hd
        exact ⟨hd, hA x hx hd⟩
    exact (List.countP_congr hiff).trans h4
  have hsupp : (satRuleOf ts).support = 4 / (ts.length : ℚ) := by
    rw [satRuleOf, mkRule_support ts _ _ 4 hoccTC]
    norm_num
  have hconf : (satRuleOf ts).confidence = 1 :=
    mkRule_confidence ts _ _ 4 ts.length hoccTC hoccT rfl (by norm_num) hTpos
  refine ⟨hsupp, hconf, ?_⟩
  intro hT80
  have hkeep : keepRule (satRuleOf ts) = true :=
    keepRule_true_counts ts _ _ 4 ts.length hoccTC hoccT rfl (by norm_num)
      (by omega) hTpos
  have hAmem : "A" ∈ channelItems ts := by
    rw [channelItems, List.mem_dedup, List.mem_flatMap]
    have hpos : 0 < ts.countP (fun x => decide (x.day = (5 : Fin 7))) := by omega
    obtain ⟨x, hx, hpx⟩ := List.countP_pos_iff.mp hpos
    have hxc : hasC "A" x = true := hA x hx (of_decide_eq_true hpx)
    exact ⟨x, hx, List.elem_iff.mp hxc⟩
  have hcand : satRuleOf ts ∈ candidateRules ts := by
    rw [candidateRules, List.mem_flatMap]
    exact ⟨TItem.day 5, by decide, List.mem_map_of_mem _ hAmem⟩
  have hkept : satRuleOf ts ∈ keptRules ts := List.mem_filter.mpr ⟨hcand, hkeep⟩
  exact ⟨hkept, fun hcnt => mem_topRules_of_count ts _ hkept hcnt⟩

/-- Counterexample to C4 as stated: in the sixteen-transaction set
`txnsCE`, channel A is an item of each of the exactly-4 Saturday
transactions and of no other transaction, and the Saturday rule is
produced and kept with support 4/16 and confidence 1.0 — yet it is absent
from the returned top-4 output, because the four rules (Sunday→B),
(Monday→C), (Tuesday→D), (Wednesday→E) all have lift 16/3 > 16/4. -/
theorem saturday_rule_counterexample :
    txnsCE.countP (fun x => decide (x.day = (5 : Fin 7))) = 4 ∧
    txnsCE.all (fun x => decide (decide (x.day = (5 : Fin 7)) = hasC "A" x)) = true ∧
    (satRuleOf txnsCE).support = 4 / 16 ∧
    (satRuleOf txnsCE).confidence = 1 ∧
    satRuleOf txnsCE ∈ keptRules txnsCE ∧
    satRuleOf txnsCE ∉ topRules txnsCE := by
  have hlen : txnsCE.length = 16 := rfl
  have hTCA : occTC txnsCE (TItem.day 5) "A" = 4 := by decide
  have hTA : occT txnsCE (TItem.day 5) = 4 := by decide
  have hCA : occC txnsCE "A" = 4 := by decide
  have hTCB : occTC txnsCE (TItem.day 6) "B" = 3 := by decide
  have hTB : occT txnsCE (TItem.day 6) = 3 := by decide
  have hCB : occC txnsCE "B" = 3 := by decide
  have hTCC : occTC txnsCE (TItem.day 0) "C" = 3 := by decide
  have hTC2 : occT txnsCE (TItem.day 0) = 3 := by decide
  have hCC : occC txnsCE "C" = 3 := by decide
  have hTCD : occTC txnsCE (TItem.day 1) "D" = 3 := by decide
  have hTD : occT txnsCE (TItem.day 1) = 3 := by decide
  have hCD : occC txnsCE "D" = 3 := by decide
  have hTCE : occTC txnsCE (TItem.day 2) "E" = 3 := by decide
  have hTE : occT txnsCE (TItem.day 2) = 3 := by decide
  have hCE : occC txnsCE "E" = 3 := by decide
  have hliftA : (satRuleOf txnsCE).lift = (16 : ℚ) / 4 := by
    rw [satRuleOf]
    exact mkRule_lift txnsCE _ _ 4 16 hTCA hTA hCA hlen (by norm_num) (by norm_num)
  have hmemB : mkRule txnsCE (TItem.day 6) "B" ∈ keptRules txnsCE :=
    List.mem_filter.mpr
      ⟨by
        rw [candidateRules, List.mem_flatMap]
        exact ⟨TItem.day 6, by decide, List.mem_map_of_mem _ (by decide)⟩,
       keepRule_true_counts txnsCE _ _ 3 16 hTCB hTB hlen (by norm_num) (by norm_num)
         (by norm_num)⟩
  have hmemC : mkRule txnsCE (TItem.day 0) "C" ∈ keptRules txnsCE :=
    List.mem_filter.mpr
      ⟨by
        rw [candidateRules, List.mem_flatMap]
        exact ⟨TItem.day 0, by decide, List.mem_map_of_mem _ (by decide)⟩,
       keepRule_true_counts txnsCE _ _ 3 16 hTCC hTC2 hlen (by norm_num) (by norm_num)
         (by norm_num)⟩
  have hmemD : mkRule txnsCE (TItem.day 1) "D" ∈ keptRules txnsCE :=
    List.mem_filter.mpr
      ⟨by
        rw [candidateRules, List.mem_flatMap]
        exact ⟨TItem.day 1, by decide, List.mem_map_of_mem _ (by decide)⟩,
       keepRule_true_counts txnsCE _ _ 3 16 hTCD hTD hlen (by norm_num) (by norm_num)
         (by norm_num)⟩
  have hmemE : mkRule txnsCE (TItem.day 2) "E" ∈ keptRules txnsCE :=
    List.mem_filter.mpr
      ⟨by
        rw [candidateRules, List.mem_flatMap]
        exact ⟨TItem.day 2, by decide, List.mem_map_of_mem _ (by decide)⟩,
       keepRule_true_counts txnsCE _ _ 3 16 hTCE hTE hlen (by norm_num) (by norm_num)
         (by norm_num)⟩
  have hrankB : (!(rankLE (satRuleOf txnsCE) (mkRule txnsCE (TItem.day 6) "B"))) = true := by
    have h := rankLE_false_of_lift_lt (satRuleOf txnsCE) (mkRule txnsCE (TItem.day 6) "B")
      (by
        rw [hliftA, mkRule_lift txnsCE _ _ 3 16 hTCB hTB hCB hlen (by norm_num) (by norm_num)]
        norm_num)
    rw [h]
    rfl
  have hrankC : (!(rankLE (satRuleOf txnsCE) (mkRule txnsCE (TItem.day 0) "C"))) = true := by
    have h := rankLE_false_of_lift_lt (satRuleOf txnsCE) (mkRule txnsCE (TItem.day 0) "C")
      (by
        rw [hliftA, mkRule_lift txnsCE _ _ 3 16 hTCC hTC2 hCC hlen (by norm_num) (by norm_num)]
        norm_num)
    rw [h]
    rfl
  have hrankD : (!(rankLE (satRuleOf txnsCE) (mkRule txnsCE (TItem.day 1) "D"))) = true := by
    have h := rankLE_false_of_lift_lt (satRuleOf txnsCE) (mkRule txnsCE (TItem.day 1) "D")
      (by
        rw [hliftA, mkRule_lift txnsCE _ _ 3 16 hTCD hTD hCD hlen (by norm_num) (by norm_num)]
        norm_num)
    rw [h]
    rfl
  have hrankE : (!(rankLE (satRuleOf txnsCE) (mkRule txnsCE (TItem.day 2) "E"))) = true := by
    have h := rankLE_false_of_lift_lt (satRuleOf txnsCE) (mkRule txnsCE (TItem.day 2) "E")
      (by
        rw [hliftA, mkRule_lift txnsCE _ _ 3 16 hTCE hTE hCE hlen (by norm_num) (by norm_num)]
        norm_num)
    rw [h]
    rfl
  refine ⟨by decide, by decide, ?_, ?_, ?_, ?_⟩
  · rw [satRuleOf, mkRule_support txnsCE _ _ 4 hTCA, hlen]
    norm_num
  · exact mkRule_confidence txnsCE _ _ 4 16 hTCA hTA hlen (by norm_num) (by norm_num)
  · refine List.mem_filter.mpr ⟨?_, ?_⟩
    · rw [candidateRules, List.mem_flatMap]
      exact ⟨TItem.day 5, by decide, List.mem_map_of_mem _ (by decide)⟩
    · exact keepRule_true_counts txnsCE _ _ 4 16 hTCA hTA hlen (by norm_num) (by norm_num)
        (by norm_num)
  · apply not_mem_topRules_of_four_above
    refine four_le_countP_of_members _ _
      (mkRule txnsCE (TItem.day 6) "B") (mkRule txnsCE (TItem.day 0) "C")
      (mkRule txnsCE (TItem.day 1) "D") (mkRule txnsCE (TItem.day 2) "E")
      ?_ ?_ ?_ ?_ ?_ ?_ hmemB hmemC hmemD hmemE hrankB hrankC hrankD hrankE
    · intro h
      exact absurd (congrArg Rule.ant h) (by decide)
    · intro h
      exact absurd (congrArg Rule.ant h) (by decide)
    · intro h
      exact absurd (congrArg Rule.ant h) (by decide)
    · intro h
      exact absurd (congrArg Rule.ant h) (by decide)
    · intro h
      exact absurd (congrArg Rule.ant h) (by decide)
    · intro h
      exact absurd (congrArg Rule.ant h) (by decide)

/-- Witness for the amended C4 at the four-Saturday transaction set: the
rule has support 4/4 and confidence 1, is kept, and appears in the top-4
output. -/
theorem saturday_rule_in_top_witness :
    (satRuleOf txnsW).support = 4 / (txnsW.length : ℚ) ∧
    (satRuleOf txnsW).confidence = 1 ∧
    satRuleOf txnsW ∈ keptRules txnsW ∧
    satRuleOf txnsW ∈ topRules txnsW := by
  have h := saturday_rule_in_top txnsW (by decide) (by decide) (by decide)
  have h80 := h.2.2 (by decide)
  refine ⟨h.1, h.2.1, h80.1, h80.2 ?_⟩
  have hcands : candidateRules txnsW =
      [mkRule txnsW (TItem.day 0) "A", mkRule txnsW (TItem.day 1) "A",
       mkRule txnsW (TItem.day 2) "A", mkRule txnsW (TItem.day 3) "A",
       mkRule txnsW (TItem.day 4) "A", mkRule txnsW (TItem.day 5) "A",
       mkRule txnsW (TItem.day 6) "A", mkRule txnsW (TItem.bucket 0) "A",
       mkRule txnsW (TItem.bucket 1) "A", mkRule txnsW (TItem.bucket 2) "A",
       mkRule txnsW (TItem.bucket 3) "A"] := rfl
  have k0 : keepRule (mkRule txnsW (TItem.day 0) "A") = false :=
    keepRule_false_of_no_support _ _ _ (by decide)
  have k1 : keepRule (mkRule txnsW (TItem.day 1) "A") = false :=
    keepRule_false_of_no_support _ _ _ (by decide)
  have k2 : keepRule (mkRule txnsW (TItem.day 2) "A") = false :=
    keepRule_false_of_no_support _ _ _ (by decide)
  have k3 : keepRule (mkRule txnsW (TItem.day 3) "A") = false :=
    keepRule_false_of_no_support _ _ _ (by decide)
  have k4 : keepRule (mkRule txnsW (TItem.day 4) "A") = false :=
    keepRule_false_of_no_support _ _ _ (by decide)
  have k6 : keepRule (mkRule txnsW (TItem.day 6) "A") = false :=
    keepRule_false_of_no_support _ _ _ (by decide)
  have kb1 : keepRule (mkRule txnsW (TItem.bucket 1) "A") = false :=
    keepRule_false_of_no_support _ _ _ (by decide)
  have kb2 : keepRule (mkRule txnsW (TItem.bucket 2) "A") = false :=
    keepRule_false_of_no_support _ _ _ (by decide)
  have kb3 : keepRule (mkRule txnsW (TItem.bucket 3) "A") = false :=
    keepRule_false_of_no_support _ _ _ (by decide)
  rw [keptRules, List.countP_filter, hcands]
  simp only [List.countP_cons, List.countP_nil, k0, k1, k2, k3, k4, k6, kb1, kb2, kb3,
    Bool.and_false, Bool.false_eq_true, if_false]
  split_ifs <;> norm_num

end Ido
